import Mathlib

/-!
Shallow embedding of `arch/risc-v/src/common/crt1.c` (NuttX kernel-build user
task startup): the signal-handler trampoline `sig_trampoline`, the three
initializer-array runners `exec_preinit` / `exec_init` / `exec_fini`, and the
task entry point `__start`.

Modelling conventions:
* An initializer array slot holds a nullable function reference; we model a
  function reference by its address (`Nat`) and a slot by `Option Nat`
  (`none` = NULL).  The linker-provided memory holding the arrays is a map
  `Nat → Option Nat` from slot addresses to slot contents; the boundary
  symbols (`__preinit_array_start` …) become explicit `Nat` bounds.
* Observable behaviour is a trace of events (`Ev`): the store to
  `ARCH_DATA_RESERVE->ar_sigtramp`, each dereference of an array slot, each
  invocation of an initializer, the `atexit` registration, the call of
  `main`, and each call of `exit`.
* `main`, `atexit` and `exit` live outside this translation unit; `main` is a
  parameter, and the `atexit`/`exit` hook mechanism is modelled from the
  spec (see `do_exit`).
* `sig_trampoline` is a naked assembly routine; it is modelled as a machine
  acting on the registers and stack words it touches (`MachState`), with its
  own event trace (`TEv`).
-/

namespace Crt1

/-- Observable events of the startup code. -/
inductive Ev where
  /-- the store `ARCH_DATA_RESERVE->ar_sigtramp = sig_trampoline` -/
  | writeSigtramp (addr : Nat)
  /-- dereference of the initializer-array slot at address `a` -/
  | readSlot (a : Nat)
  /-- invocation `initializer()` of the function whose address is `f` -/
  | invoke (f : Nat)
  /-- the call `atexit(exec_fini)` -/
  | registerAtexit
  /-- the call `main(argc, argv)` -/
  | callMain (argc : Int)
  /-- a call `exit(status)` -/
  | callExit (status : Int)
  deriving DecidableEq, Repr

/-- The invocations contained in a trace, in order. -/
def calls (t : List Ev) : List Nat :=
  t.filterMap fun ev =>
    match ev with
    | Ev.invoke f => some f
    | _ => none

/-- The slot addresses dereferenced in a trace, in order. -/
def reads (t : List Ev) : List Nat :=
  t.filterMap fun ev =>
    match ev with
    | Ev.readSlot a => some a
    | _ => none

/-- Whether an event is the store to `ar_sigtramp`. -/
def isWrite : Ev → Bool := fun ev =>
  match ev with
  | Ev.writeSigtramp _ => true
  | _ => false

/-- Whether an event is the `atexit` registration. -/
def isRegister : Ev → Bool := fun ev =>
  match ev with
  | Ev.registerAtexit => true
  | _ => false

/-- The status of the first `exit` call in a trace, if any: the task's
observed exit status. -/
def firstExit : List Ev → Option Int
  | [] => none
  | Ev.callExit s :: _ => some s
  | _ :: rest => firstExit rest

/-- The body of one iteration of an initializer loop:
`initializer_t initializer = *p; if (initializer) { initializer(); }`. -/
def slotStep (mem : Nat → Option Nat) (p : Nat) : List Ev :=
  Ev.readSlot p ::
    (match mem p with
     | some f => [Ev.invoke f]
     | none => [])

/-- Loop of `exec_preinit`:
`for (preinit = __preinit_array_start; preinit < __preinit_array_end; ++preinit)`.
The fuel argument (instantiated with `e - p`) only makes the recursion
structural; the loop test `p < e` is the C loop condition. -/
def preinit_loop (mem : Nat → Option Nat) (e : Nat) : Nat → Nat → List Ev
  | _, 0 => []
  | p, fuel + 1 =>
    if p < e then slotStep mem p ++ preinit_loop mem e (p + 1) fuel
    else []

/-- Loop of `exec_init` (textually identical to `preinit_loop` in the C). -/
def init_loop (mem : Nat → Option Nat) (e : Nat) : Nat → Nat → List Ev
  | _, 0 => []
  | p, fuel + 1 =>
    if p < e then slotStep mem p ++ init_loop mem e (p + 1) fuel
    else []

/-- Loop of `exec_fini` (textually identical to `preinit_loop` in the C). -/
def fini_loop (mem : Nat → Option Nat) (e : Nat) : Nat → Nat → List Ev
  | _, 0 => []
  | p, fuel + 1 =>
    if p < e then slotStep mem p ++ fini_loop mem e (p + 1) fuel
    else []

/-- `exec_preinit`: run the pre-init array between boundaries `p` and `e`. -/
def exec_preinit (mem : Nat → Option Nat) (p e : Nat) : List Ev :=
  preinit_loop mem e p (e - p)

/-- `exec_init`: run the init array between boundaries `p` and `e`. -/
def exec_init (mem : Nat → Option Nat) (p e : Nat) : List Ev :=
  init_loop mem e p (e - p)

/-- `exec_fini`: run the fini array between boundaries `p` and `e`. -/
def exec_fini (mem : Nat → Option Nat) (p e : Nat) : List Ev :=
  fini_loop mem e p (e - p)

/-- Modelled from the spec: the generic "ordered callback list executor"
(§9 Design Notes) — given boundaries delimiting a contiguous sequence of
nullable function references, invoke each non-null entry exactly once, in
ascending address order, skipping nulls.  Its result is the invocation
sequence; it is the reference behaviour the three phase runners are compared
against. -/
def run_callbacks (mem : Nat → Option Nat) (p e : Nat) : List Nat :=
  (List.range' p (e - p)).filterMap mem

/-- The entry slice of the initializer array between boundaries `p` and `e`,
in ascending address order (`none` = NULL entry). -/
def entries (mem : Nat → Option Nat) (p e : Nat) : List (Option Nat) :=
  (List.range' p (e - p)).map mem

/-! ## The task entry point `__start`

`__start` receives `argc`/`argv`, stores the address of `sig_trampoline`
into `ARCH_DATA_RESERVE->ar_sigtramp`, and — when `CONFIG_HAVE_CXX` is
defined — runs `exec_preinit()`, `exec_init()` and registers
`atexit(exec_fini)`; it then calls `main(argc, argv)` and `exit(ret)`.

The pieces of the environment that are external to the translation unit are
collected in `StartEnv`: the `CONFIG_HAVE_CXX` configuration switch, the
address of `sig_trampoline` as linked, the linker-provided initializer
arrays with their boundary symbols, and the behaviour of `main` (its return
value as a function of `argc` and the `argv` pointer). -/

/-- Environment of one task start (everything `__start` reads but does not
define itself). -/
structure StartEnv where
  /-- whether `CONFIG_HAVE_CXX` is defined -/
  haveCxx : Bool
  /-- the link-time address of `sig_trampoline` -/
  sigtrampAddr : Nat
  /-- contents of the slots of `.preinit_array` -/
  preMem : Nat → Option Nat
  /-- `__preinit_array_start` -/
  preS : Nat
  /-- `__preinit_array_end` -/
  preE : Nat
  /-- contents of the slots of `.init_array` -/
  iniMem : Nat → Option Nat
  /-- `__init_array_start` -/
  iniS : Nat
  /-- `__init_array_end` -/
  iniE : Nat
  /-- contents of the slots of `.fini_array` -/
  finMem : Nat → Option Nat
  /-- `__fini_array_start` -/
  finS : Nat
  /-- `__fini_array_end` -/
  finE : Nat
  /-- return value of `main(argc, argv)` -/
  mainFn : Int → Nat → Int

/-- The exit hooks registered during startup: `__start` registers
`atexit(exec_fini)` exactly when `CONFIG_HAVE_CXX` is defined
(each hook is represented by its trace). -/
def atexit_hooks (env : StartEnv) : List (List Ev) :=
  if env.haveCxx then [exec_fini env.finMem env.finS env.finE] else []

/-- State of the process-exit mechanism: the registered hooks and whether
they have already been run. -/
structure ExitState where
  hooks : List (List Ev)
  ran : Bool

/-- Modelled from the spec: the standard process-exit mechanism
(`atexit`/`exit`), whose implementation is outside these sources (§6
"Process-exit hook registration").  A call of `exit(status)` reports the
status and runs the hooks registered via `atexit`; the hooks fire exactly
once per task, so any further exit request runs no hook again. -/
def do_exit (st : ExitState) (status : Int) : ExitState × List Ev :=
  if st.ran then (st, [Ev.callExit status])
  else ({ st with ran := true }, Ev.callExit status :: st.hooks.flatten)

/-- Trace of a sequence of `exit` calls starting from exit state `st`. -/
def exits (st : ExitState) : List Int → List Ev
  | [] => []
  | s :: rest => (do_exit st s).2 ++ exits (do_exit st s).1 rest

/-- `__start`: the task entry point, as a trace.  `extraExits` models any
further `exit` calls made after the one in `__start` (none happen in a
normal run: instantiate it with `[]`); the first `exit` call is
`exit(main(argc, argv))` from `__start` itself. -/
def __start (env : StartEnv) (argc : Int) (argv : Nat) (extraExits : List Int) :
    List Ev :=
  Ev.writeSigtramp env.sigtrampAddr ::
    ((if env.haveCxx then
        exec_preinit env.preMem env.preS env.preE ++
        exec_init env.iniMem env.iniS env.iniE ++
        [Ev.registerAtexit]
      else []) ++
     Ev.callMain argc ::
       exits { hooks := atexit_hooks env, ran := false }
         (env.mainFn argc argv :: extraExits))

/-! ## The signal trampoline `sig_trampoline`

`sig_trampoline` is a `naked_function` whose body is the literal
instruction sequence

```
addi sp, sp, -STACK_FRAME_SIZE
REGSTORE ra, 0(sp)
mv   t0, a0
mv   a0, a1
mv   a1, a2
mv   a2, a3
jalr t0
REGLOAD ra, 0(sp)
addi sp, sp, STACK_FRAME_SIZE
li   a0, SYS_signal_handler_return
ecall
```

We model the machine state as the registers the routine touches plus the
stack memory (a map from addresses to machine words; `REGSTORE`/`REGLOAD`
store and load one word).  `STACK_FRAME_SIZE` and the numeric value of
`SYS_signal_handler_return` come from headers outside these sources and are
parameters (`fsz`, `shr`).  The user signal handler invoked by `jalr t0` is
arbitrary code: it is a parameter `h` transforming the machine state; the
`jalr` also records a `TEv.hcall` event carrying the call target and the
three argument registers at the call.  The trace records exactly the
handler call and the `ecall` requests issued by the trampoline itself. -/

/-- Register and stack-memory state at the trampoline. -/
structure MachState where
  sp : Int
  ra : Int
  a0 : Int
  a1 : Int
  a2 : Int
  a3 : Int
  t0 : Int
  mem : Int → Int

/-- Events observable at the trampoline. -/
inductive TEv where
  /-- `jalr t0`: call of the function at `target` with arguments
  `(x, y, z)` in the first three argument registers -/
  | hcall (target x y z : Int)
  /-- `ecall` with request number `num` in `a0` -/
  | ecall (num : Int)
  deriving DecidableEq, Repr

/-- The instructions of `sig_trampoline` up to and including the frame
release (`addi sp, sp, STACK_FRAME_SIZE`), i.e. the state reached just
before the `li a0, SYS_signal_handler_return` / `ecall` pair. -/
def sig_tramp_body (fsz : Int) (h : MachState → MachState) (s : MachState) :
    MachState × List TEv :=
  let s1 := { s with sp := s.sp - fsz }                -- addi sp, sp, -fsz
  let s2 := { s1 with mem := fun a => if a = s1.sp then s1.ra else s1.mem a }
                                                       -- REGSTORE ra, 0(sp)
  let s3 := { s2 with t0 := s2.a0 }                    -- mv t0, a0
  let s4 := { s3 with a0 := s3.a1 }                    -- mv a0, a1
  let s5 := { s4 with a1 := s4.a2 }                    -- mv a1, a2
  let s6 := { s5 with a2 := s5.a3 }                    -- mv a2, a3
  let s7 := h s6                                       -- jalr t0
  let s8 := { s7 with ra := s7.mem s7.sp }             -- REGLOAD ra, 0(sp)
  let s9 := { s8 with sp := s8.sp + fsz }              -- addi sp, sp, fsz
  (s9, [TEv.hcall s6.t0 s6.a0 s6.a1 s6.a2])

/-- `sig_trampoline`: the full routine — the body above followed by
`li a0, shr` and `ecall`. -/
def sig_trampoline (fsz shr : Int) (h : MachState → MachState)
    (s : MachState) : MachState × List TEv :=
  let r := sig_tramp_body fsz h s
  ({ r.1 with a0 := shr }, r.2 ++ [TEv.ecall shr])

/-- The machine state at the `jalr t0` instruction (frame allocated, `ra`
saved at `0(sp)`, arguments shuffled down, handler address in `t0`).  It is
definitionally the state `sig_tramp_body` passes to the handler. -/
def midState (fsz : Int) (s : MachState) : MachState :=
  { sp := s.sp - fsz
    ra := s.ra
    a0 := s.a1
    a1 := s.a2
    a2 := s.a3
    a3 := s.a3
    t0 := s.a0
    mem := fun a => if a = s.sp - fsz then s.ra else s.mem a }

/-- A signal handler that follows the ABI as far as the trampoline needs:
on return the stack pointer is restored, and the caller's stack frame (the
words at addresses at or above the entry `sp`) is untouched. -/
def HandlerOk (h : MachState → MachState) : Prop :=
  (∀ s, (h s).sp = s.sp) ∧ (∀ s a, s.sp ≤ a → (h s).mem a = s.mem a)

/-! ## Concrete fixtures used by the witnesses -/

/-- A concrete environment with `CONFIG_HAVE_CXX`: pre-init array `[P]`,
init array `[A, NULL, B]`, fini array `[C, D]`, `main` returning `7`. -/
def envCxx : StartEnv :=
  { haveCxx := true
    sigtrampAddr := 100
    preMem := fun a => if a = 0 then some 10 else none
    preS := 0
    preE := 1
    iniMem := fun a => if a = 0 then some 20 else if a = 2 then some 21 else none
    iniS := 0
    iniE := 3
    finMem := fun a => if a = 0 then some 30 else if a = 1 then some 31 else none
    finS := 0
    finE := 2
    mainFn := fun _ _ => 7 }

/-- A concrete environment without `CONFIG_HAVE_CXX` (`main` returning `3`);
its initializer arrays are nonempty to show they are indeed not run. -/
def envNoCxx : StartEnv :=
  { envCxx with haveCxx := false, mainFn := fun _ _ => 3 }

/-- A concrete machine state at trampoline entry: handler address `40` in
`a0`, then signo `5`, info `60`, context `70`; `sp = 1000`, `ra = 900`. -/
def machEntry : MachState :=
  { sp := 1000, ra := 900, a0 := 40, a1 := 5, a2 := 60, a3 := 70, t0 := 0
    mem := fun _ => 0 }

/-! ## Helper lemmas -/

theorem preinit_loop_eq_init_loop : preinit_loop = init_loop := by
  funext mem e p fuel
  induction fuel generalizing p with
  | zero => rfl
  | succ n ih => simp only [preinit_loop, init_loop, ih]

theorem preinit_loop_eq_fini_loop : preinit_loop = fini_loop := by
  funext mem e p fuel
  induction fuel generalizing p with
  | zero => rfl
  | succ n ih => simp only [preinit_loop, fini_loop, ih]

theorem exec_init_eq_exec_preinit : exec_init = exec_preinit := by
  funext mem p e
  simp only [exec_init, exec_preinit, preinit_loop_eq_init_loop]

theorem exec_fini_eq_exec_preinit : exec_fini = exec_preinit := by
  funext mem p e
  simp only [exec_fini, exec_preinit, preinit_loop_eq_fini_loop]

theorem calls_append (t u : List Ev) : calls (t ++ u) = calls t ++ calls u := by
  simp [calls]

theorem reads_append (t u : List Ev) : reads (t ++ u) = reads t ++ reads u := by
  simp [reads]

/-- The unfolding of `exec_preinit` when the range is nonempty. -/
theorem exec_preinit_cons (mem : Nat → Option Nat) (p e : Nat) (h : p < e) :
    exec_preinit mem p e = slotStep mem p ++ exec_preinit mem (p + 1) e := by
  have hfuel : e - p = (e - (p + 1)) + 1 := by omega
  rw [exec_preinit, hfuel, preinit_loop, if_pos h, exec_preinit]

theorem exec_preinit_nil (mem : Nat → Option Nat) (p e : Nat) (h : ¬ p < e) :
    exec_preinit mem p e = [] := by
  have hfuel : e - p = 0 := by omega
  rw [exec_preinit, hfuel, preinit_loop]

theorem entries_cons (mem : Nat → Option Nat) (p e : Nat) (h : p < e) :
    entries mem p e = mem p :: entries mem (p + 1) e := by
  have hfuel : e - p = (e - (p + 1)) + 1 := by omega
  rw [entries, hfuel, List.range'_succ, List.map_cons, entries]

theorem entries_nil (mem : Nat → Option Nat) (p e : Nat) (h : ¬ p < e) :
    entries mem p e = [] := by
  have hfuel : e - p = 0 := by omega
  rw [entries, hfuel, List.range', List.map_nil]

theorem calls_preinit_loop (mem : Nat → Option Nat) (e : Nat) :
    ∀ fuel p, e - p = fuel →
      calls (preinit_loop mem e p fuel) = (entries mem p e).filterMap id := by
  intro fuel
  induction fuel with
  | zero =>
    intro p hp
    rw [preinit_loop, entries_nil mem p e (by omega)]
    rfl
  | succ n ih =>
    intro p hp
    have h : p < e := by omega
    rw [preinit_loop, if_pos h, calls_append, ih (p + 1) (by omega),
      entries_cons mem p e h, List.filterMap_cons]
    cases hm : mem p <;> simp [slotStep, calls, hm]

/-- The invocations performed by `exec_preinit` are exactly the non-null
entries of its range, in array order. -/
theorem calls_exec_preinit (mem : Nat → Option Nat) (p e : Nat) :
    calls (exec_preinit mem p e) = (entries mem p e).filterMap id :=
  calls_preinit_loop mem e (e - p) p rfl

theorem reads_preinit_loop (mem : Nat → Option Nat) (e : Nat) :
    ∀ fuel p, e - p = fuel →
      reads (preinit_loop mem e p fuel) = List.range' p fuel := by
  intro fuel
  induction fuel with
  | zero =>
    intro p hp
    rw [preinit_loop, List.range']
    rfl
  | succ n ih =>
    intro p hp
    have h : p < e := by omega
    rw [preinit_loop, if_pos h, reads_append, ih (p + 1) (by omega),
      List.range'_succ]
    cases hm : mem p <;> simp [slotStep, reads, hm]

/-- The slot dereferences performed by `exec_preinit` are exactly the
addresses of its range, in ascending order. -/
theorem reads_exec_preinit (mem : Nat → Option Nat) (p e : Nat) :
    reads (exec_preinit mem p e) = List.range' p (e - p) :=
  reads_preinit_loop mem e (e - p) p rfl

/-- Once the hooks have run, further exit calls only report their status. -/
theorem exits_ran (sts : List Int) (hooks : List (List Ev)) :
    exits { hooks := hooks, ran := true } sts = sts.map Ev.callExit := by
  induction sts with
  | nil => rfl
  | cons s rest ih => simp [exits, do_exit, ih]

/-- The exit sequence with a first live exit: status first, hooks once, then
only status reports. -/
theorem exits_cons (s : Int) (sts : List Int) (hooks : List (List Ev)) :
    exits { hooks := hooks, ran := false } (s :: sts) =
      Ev.callExit s :: hooks.flatten ++ sts.map Ev.callExit := by
  simp [exits, do_exit, exits_ran]

/-- Normal form of the `__start` trace. -/
theorem start_norm (env : StartEnv) (argc : Int) (argv : Nat)
    (extra : List Int) :
    __start env argc argv extra =
      Ev.writeSigtramp env.sigtrampAddr ::
        ((if env.haveCxx then
            exec_preinit env.preMem env.preS env.preE ++
            exec_init env.iniMem env.iniS env.iniE ++
            [Ev.registerAtexit]
          else []) ++
         Ev.callMain argc ::
           Ev.callExit (env.mainFn argc argv) ::
             ((if env.haveCxx then exec_fini env.finMem env.finS env.finE
               else []) ++
              extra.map Ev.callExit)) := by
  rw [__start, exits_cons]
  cases h : env.haveCxx <;> simp [atexit_hooks, h]

/-- Every event of an initializer loop is a slot read or an invocation. -/
theorem preinit_loop_events (mem : Nat → Option Nat) (e : Nat) :
    ∀ fuel p ev, ev ∈ preinit_loop mem e p fuel →
      (∃ a, ev = Ev.readSlot a) ∨ (∃ f, ev = Ev.invoke f) := by
  intro fuel
  induction fuel with
  | zero =>
    intro p ev hmem
    rw [preinit_loop] at hmem
    cases hmem
  | succ n ih =>
    intro p ev hmem
    rw [preinit_loop] at hmem
    by_cases h : p < e
    · rw [if_pos h, List.mem_append] at hmem
      rcases hmem with hmem | hmem
      · simp only [slotStep, List.mem_cons] at hmem
        rcases hmem with rfl | hmem
        · exact Or.inl ⟨p, rfl⟩
        · cases hm : mem p
          · simp [hm] at hmem
          · simp [hm] at hmem
            subst hmem
            exact Or.inr ⟨_, rfl⟩
      · exact ih (p + 1) ev hmem
    · rw [if_neg h] at hmem
      cases hmem

theorem exec_preinit_events (mem : Nat → Option Nat) (p e : Nat) (ev : Ev)
    (hmem : ev ∈ exec_preinit mem p e) :
    (∃ a, ev = Ev.readSlot a) ∨ (∃ f, ev = Ev.invoke f) :=
  preinit_loop_events mem e (e - p) p ev hmem

theorem countP_isWrite_exec_preinit (mem : Nat → Option Nat) (p e : Nat) :
    (exec_preinit mem p e).countP isWrite = 0 := by
  rw [List.countP_eq_zero]
  intro ev hmem
  rcases exec_preinit_events mem p e ev hmem with ⟨a, rfl⟩ | ⟨f, rfl⟩ <;>
    simp [isWrite]

theorem countP_isWrite_map_callExit (sts : List Int) :
    (sts.map Ev.callExit).countP isWrite = 0 := by
  rw [List.countP_eq_zero]
  intro ev hmem
  rcases List.mem_map.1 hmem with ⟨s, _, rfl⟩
  simp [isWrite]

theorem calls_map_callExit (sts : List Int) :
    calls (sts.map Ev.callExit) = [] := by
  induction sts with
  | nil => rfl
  | cons s rest ih => simp [calls]

/-- `firstExit` skips a list with no `callExit` event. -/
theorem firstExit_append (t u : List Ev)
    (h : ∀ ev ∈ t, ∀ s, ev ≠ Ev.callExit s) :
    firstExit (t ++ u) = firstExit u := by
  induction t with
  | nil => rfl
  | cons ev rest ih =>
    have hrest : ∀ ev ∈ rest, ∀ s, ev ≠ Ev.callExit s := by
      intro ev hm; exact h ev (List.mem_cons_of_mem _ hm)
    cases ev with
    | callExit s => exact absurd rfl (h _ (List.mem_cons_self _ _) s)
    | writeSigtramp a =>
      rw [List.cons_append, firstExit, ih hrest]
      exact fun s hs => Ev.noConfusion hs
    | readSlot a =>
      rw [List.cons_append, firstExit, ih hrest]
      exact fun s hs => Ev.noConfusion hs
    | invoke f =>
      rw [List.cons_append, firstExit, ih hrest]
      exact fun s hs => Ev.noConfusion hs
    | registerAtexit =>
      rw [List.cons_append, firstExit, ih hrest]
      exact fun s hs => Ev.noConfusion hs
    | callMain argc =>
      rw [List.cons_append, firstExit, ih hrest]
      exact fun s hs => Ev.noConfusion hs

theorem length_filterMap_id (l : List (Option Nat)) :
    (l.filterMap id).length + l.countP (fun o => o.isNone) = l.length := by
  induction l with
  | nil => rfl
  | cons a t ih =>
    cases a <;> simp [List.filterMap_cons, List.countP_cons] <;> omega

theorem count_filterMap_id (l : List (Option Nat)) (f : Nat) :
    (l.filterMap id).count f = l.count (some f) := by
  induction l with
  | nil => rfl
  | cons a t ih =>
    cases a with
    | none => simp [List.filterMap_cons, List.count_cons, ih]
    | some g => simp [List.filterMap_cons, List.count_cons, ih]

theorem firstExit_cons_of_ne (ev : Ev) (t : List Ev)
    (h : ∀ s, ev ≠ Ev.callExit s) : firstExit (ev :: t) = firstExit t := by
  cases ev <;> first | rfl | exact absurd rfl (h _)

theorem countP_isRegister_map_callExit (sts : List Int) :
    (sts.map Ev.callExit).countP isRegister = 0 := by
  rw [List.countP_eq_zero]
  intro ev hmem
  rcases List.mem_map.1 hmem with ⟨s, _, rfl⟩
  simp [isRegister]

/-- All events of the `CONFIG_HAVE_CXX` startup block (pre-init, init,
`atexit` registration) are distinct from any `exit` call. -/
theorem cxx_block_no_exit (env : StartEnv) :
    ∀ ev ∈ exec_preinit env.preMem env.preS env.preE ++
        exec_init env.iniMem env.iniS env.iniE ++ [Ev.registerAtexit],
      ∀ s, ev ≠ Ev.callExit s := by
  intro ev hmem s
  rcases List.mem_append.1 hmem with hmem | hmem
  · rcases List.mem_append.1 hmem with hmem | hmem
    · rcases exec_preinit_events _ _ _ _ hmem with ⟨a, rfl⟩ | ⟨f, rfl⟩ <;>
        exact fun hs => Ev.noConfusion hs
    · rw [exec_init_eq_exec_preinit] at hmem
      rcases exec_preinit_events _ _ _ _ hmem with ⟨a, rfl⟩ | ⟨f, rfl⟩ <;>
        exact fun hs => Ev.noConfusion hs
  · rcases List.mem_singleton.1 hmem with rfl
    exact fun hs => Ev.noConfusion hs

/-! ## The claims -/

/-- C1: entered with a Signal Invocation Record (handler in `a0`, then signo,
info, context in `a1`–`a3`), `sig_trampoline` invokes the handler exactly
once, with exactly (signo, info, context) in that order, and after the
handler returns it issues exactly one privileged request — the
signal-handler-return `ecall` — with no other privileged request in between:
its trace is exactly `[hcall H S I C, ecall SYS_signal_handler_return]`. -/
theorem C1_sig_trampoline_trace (fsz shr : Int) (h : MachState → MachState)
    (s : MachState) :
    (sig_trampoline fsz shr h s).2 =
      [TEv.hcall s.a0 s.a1 s.a2 s.a3, TEv.ecall shr] := rfl

/-- C2: with `CONFIG_HAVE_CXX`, `__start` performs its lifecycle steps in
strict order: first the store of `sig_trampoline`'s address into the reserved
area (the very first event, before any initializer), then the pre-init phase,
then the init phase, then the `atexit` registration of the fini phase, then
`main(argc, argv)`, then `exit` with `main`'s return value. -/
theorem C2_start_order (env : StartEnv) (argc : Int) (argv : Nat)
    (h : env.haveCxx = true) :
    __start env argc argv [] =
      Ev.writeSigtramp env.sigtrampAddr ::
        (exec_preinit env.preMem env.preS env.preE ++
         (exec_init env.iniMem env.iniS env.iniE ++
          (Ev.registerAtexit ::
           Ev.callMain argc ::
           Ev.callExit (env.mainFn argc argv) ::
           exec_fini env.finMem env.finS env.finE))) := by
  rw [start_norm, h]
  simp [List.append_assoc]

/-- Witness for C2: the concrete environment `envCxx` with `argc = 2`. -/
theorem C2_start_order_witness :
    envCxx.haveCxx = true ∧
    __start envCxx 2 7 [] =
      Ev.writeSigtramp envCxx.sigtrampAddr ::
        (exec_preinit envCxx.preMem envCxx.preS envCxx.preE ++
         (exec_init envCxx.iniMem envCxx.iniS envCxx.iniE ++
          (Ev.registerAtexit ::
           Ev.callMain 2 ::
           Ev.callExit (envCxx.mainFn 2 7) ::
           exec_fini envCxx.finMem envCxx.finS envCxx.finE))) :=
  ⟨rfl, C2_start_order envCxx 2 7 rfl⟩

/-- C3: for an initializer array slice of length `n = e − p` containing `k`
null entries, the runner performs exactly `n − k` invocations — each non-null
entry invoked once per occurrence — in ascending address order with nulls
skipped (the invocation sequence is the array's non-null entries in array
order, and the slots are read at strictly ascending addresses); the same
forward order holds for the fini runner, which is not run in reverse. -/
theorem C3_runner_invocations (mem : Nat → Option Nat) (p e : Nat) :
    calls (exec_preinit mem p e) = (entries mem p e).filterMap id ∧
    calls (exec_init mem p e) = (entries mem p e).filterMap id ∧
    calls (exec_fini mem p e) = (entries mem p e).filterMap id ∧
    (calls (exec_init mem p e)).length +
        (entries mem p e).countP (fun o => o.isNone) =
      (entries mem p e).length ∧
    (∀ f, (calls (exec_init mem p e)).count f =
      (entries mem p e).count (some f)) ∧
    reads (exec_init mem p e) = List.range' p (e - p) ∧
    reads (exec_fini mem p e) = List.range' p (e - p) := by
  rw [exec_init_eq_exec_preinit, exec_fini_eq_exec_preinit]
  refine ⟨calls_exec_preinit mem p e, calls_exec_preinit mem p e,
    calls_exec_preinit mem p e, ?_, ?_, reads_exec_preinit mem p e,
    reads_exec_preinit mem p e⟩
  · rw [calls_exec_preinit]
    exact length_filterMap_id _
  · intro f
    rw [calls_exec_preinit]
    exact count_filterMap_id _ f

/-- C4: the reserved area's trampoline-address field is written exactly once
per task: the very first event of `__start` is the store of
`sig_trampoline`'s address, and no other event of the unit (under any number
of exit calls) writes the field. -/
theorem C4_sigtramp_write_once (env : StartEnv) (argc : Int) (argv : Nat)
    (extra : List Int) :
    (__start env argc argv extra).head? =
      some (Ev.writeSigtramp env.sigtrampAddr) ∧
    (__start env argc argv extra).countP isWrite = 1 := by
  constructor
  · rw [start_norm]
    rfl
  · rw [start_norm]
    cases hc : env.haveCxx <;>
      simp [List.countP_cons, List.countP_append, isWrite,
        countP_isWrite_exec_preinit, countP_isWrite_map_callExit,
        exec_init_eq_exec_preinit, exec_fini_eq_exec_preinit]

/-- C5: the task's observed exit status — the status of the first `exit`
call — equals `main`'s return value, forwarded unmodified. -/
theorem C5_exit_status (env : StartEnv) (argc : Int) (argv : Nat)
    (extra : List Int) :
    firstExit (__start env argc argv extra) = some (env.mainFn argc argv) := by
  rw [start_norm]
  cases hc : env.haveCxx
  · rfl
  · rw [firstExit_cons_of_ne _ _ (fun s hs => Ev.noConfusion hs), if_pos rfl,
      firstExit_append _ _ (cxx_block_no_exit env),
      firstExit_cons_of_ne _ _ (fun s hs => Ev.noConfusion hs)]
    rfl

/-- C6: the fini callbacks execute exactly once, strictly after `main`
returns (or an exit call), never more than once even under repeated exit
calls: with `CONFIG_HAVE_CXX`, for any number of further exit calls the
whole trace is the startup prefix, `main`, the first `exit` carrying
`main`'s return value, the fini phase exactly once, and then the remaining
exit calls — which invoke nothing. -/
theorem C6_fini_once (env : StartEnv) (argc : Int) (argv : Nat)
    (extra : List Int) (h : env.haveCxx = true) :
    __start env argc argv extra =
      Ev.writeSigtramp env.sigtrampAddr ::
        (exec_preinit env.preMem env.preS env.preE ++
         (exec_init env.iniMem env.iniS env.iniE ++
          (Ev.registerAtexit ::
           Ev.callMain argc ::
           Ev.callExit (env.mainFn argc argv) ::
           (exec_fini env.finMem env.finS env.finE ++
            extra.map Ev.callExit)))) ∧
    calls (extra.map Ev.callExit) = [] := by
  refine ⟨?_, calls_map_callExit extra⟩
  rw [start_norm, h]
  simp [List.append_assoc]

/-- Witness for C6: the concrete environment `envCxx`, `main` returning 7,
and two further exit calls. -/
theorem C6_fini_once_witness :
    envCxx.haveCxx = true ∧
    (__start envCxx 1 5 [2, 9] =
      Ev.writeSigtramp envCxx.sigtrampAddr ::
        (exec_preinit envCxx.preMem envCxx.preS envCxx.preE ++
         (exec_init envCxx.iniMem envCxx.iniS envCxx.iniE ++
          (Ev.registerAtexit ::
           Ev.callMain 1 ::
           Ev.callExit (envCxx.mainFn 1 5) ::
           (exec_fini envCxx.finMem envCxx.finS envCxx.finE ++
            [Int.ofNat 2, Int.ofNat 9].map Ev.callExit)))) ∧
     calls ([Int.ofNat 2, Int.ofNat 9].map Ev.callExit) = []) :=
  ⟨rfl, C6_fini_once envCxx 1 5 [2, 9] rfl⟩

/-- C7: across the handler call, the link register and the stack pointer are
preserved: the trampoline saves `ra` into its fixed-size frame before the
call (at the `jalr`, the word at `sp` is the entry `ra`), and for any
ABI-respecting handler the state just before the `li`/`ecall` pair has the
entry `ra` restored and the entry `sp` re-established (net stack-pointer
change zero); both still hold at the `ecall` itself. -/
theorem C7_sig_trampoline_frame (fsz shr : Int) (h : MachState → MachState)
    (s : MachState) (hok : HandlerOk h) :
    (midState fsz s).mem ((midState fsz s).sp) = s.ra ∧
    (sig_tramp_body fsz h s).1.ra = s.ra ∧
    (sig_tramp_body fsz h s).1.sp = s.sp ∧
    (sig_trampoline fsz shr h s).1.ra = s.ra ∧
    (sig_trampoline fsz shr h s).1.sp = s.sp := by
  obtain ⟨hsp, hmem⟩ := hok
  have hsaved : (midState fsz s).mem ((midState fsz s).sp) = s.ra := by
    simp [midState]
  have hbody_ra : (sig_tramp_body fsz h s).1.ra = s.ra := by
    show (h (midState fsz s)).mem ((h (midState fsz s)).sp) = s.ra
    rw [hsp (midState fsz s), hmem (midState fsz s) _ (le_refl _)]
    exact hsaved
  have hbody_sp : (sig_tramp_body fsz h s).1.sp = s.sp := by
    show (h (midState fsz s)).sp + fsz = s.sp
    rw [hsp (midState fsz s)]
    show s.sp - fsz + fsz = s.sp
    omega
  exact ⟨hsaved, hbody_ra, hbody_sp, hbody_ra, hbody_sp⟩

/-- Witness for C7: frame size 16, request number 139, the identity handler
(trivially ABI-respecting), and the concrete entry state `machEntry`. -/
theorem C7_sig_trampoline_frame_witness :
    HandlerOk id ∧
    ((midState 16 machEntry).mem ((midState 16 machEntry).sp) = machEntry.ra ∧
     (sig_tramp_body 16 id machEntry).1.ra = machEntry.ra ∧
     (sig_tramp_body 16 id machEntry).1.sp = machEntry.sp ∧
     (sig_trampoline 16 139 id machEntry).1.ra = machEntry.ra ∧
     (sig_trampoline 16 139 id machEntry).1.sp = machEntry.sp) :=
  ⟨⟨fun _ => rfl, fun _ _ _ => rfl⟩,
   C7_sig_trampoline_frame 16 139 id machEntry
     ⟨fun _ => rfl, fun _ _ _ => rfl⟩⟩

/-- C8: a phase whose start boundary equals its end boundary performs zero
invocations and produces no event at all — in particular no slot is
dereferenced and no fault is raised — for each of the three runners. -/
theorem C8_empty_range (memP memI memF : Nat → Option Nat) (e : Nat) :
    exec_preinit memP e e = [] ∧ exec_init memI e e = [] ∧
    exec_fini memF e e = [] := by
  refine ⟨exec_preinit_nil _ _ _ (lt_irrefl e), ?_, ?_⟩
  · rw [exec_init_eq_exec_preinit]
    exact exec_preinit_nil _ _ _ (lt_irrefl e)
  · rw [exec_fini_eq_exec_preinit]
    exact exec_preinit_nil _ _ _ (lt_irrefl e)

/-- C9: the three phase runners are behaviorally identical: on any boundary
pair each one's invocation sequence equals that of the single generic
ordered-callback-list executor `run_callbacks`, and as trace functions
`exec_init` and `exec_fini` coincide with `exec_preinit`. -/
theorem C9_runners_identical (mem : Nat → Option Nat) (p e : Nat) :
    calls (exec_preinit mem p e) = run_callbacks mem p e ∧
    calls (exec_init mem p e) = run_callbacks mem p e ∧
    calls (exec_fini mem p e) = run_callbacks mem p e ∧
    exec_init = exec_preinit ∧ exec_fini = exec_preinit := by
  have hpre : calls (exec_preinit mem p e) = run_callbacks mem p e := by
    rw [calls_exec_preinit, entries, run_callbacks, List.filterMap_map]
    rfl
  exact ⟨hpre, by rw [exec_init_eq_exec_preinit]; exact hpre,
    by rw [exec_fini_eq_exec_preinit]; exact hpre,
    exec_init_eq_exec_preinit, exec_fini_eq_exec_preinit⟩

/-- C10: without `CONFIG_HAVE_CXX`, `__start` skips the pre-init and init
phases and installs no exit hook: the task proceeds from the
trampoline-address write directly to `main` and then `exit`; no initializer
or teardown callback is ever invoked and no `atexit` registration occurs,
under any number of exit calls. -/
theorem C10_no_cxx (env : StartEnv) (argc : Int) (argv : Nat)
    (extra : List Int) (h : env.haveCxx = false) :
    __start env argc argv extra =
      Ev.writeSigtramp env.sigtrampAddr ::
        Ev.callMain argc ::
          Ev.callExit (env.mainFn argc argv) :: extra.map Ev.callExit ∧
    calls (__start env argc argv extra) = [] ∧
    (__start env argc argv extra).countP isRegister = 0 := by
  have heq : __start env argc argv extra =
      Ev.writeSigtramp env.sigtrampAddr ::
        Ev.callMain argc ::
          Ev.callExit (env.mainFn argc argv) :: extra.map Ev.callExit := by
    rw [start_norm, h]
    simp
  refine ⟨heq, ?_, ?_⟩
  · rw [heq]
    simp [calls]
  · rw [heq]
    simp [List.countP_cons, isRegister, countP_isRegister_map_callExit]

/-- Witness for C10: the concrete environment `envNoCxx` (whose initializer
arrays are nonempty), `main` returning 3, and one further exit call. -/
theorem C10_no_cxx_witness :
    envNoCxx.haveCxx = false ∧
    (__start envNoCxx 0 3 [4] =
      Ev.writeSigtramp envNoCxx.sigtrampAddr ::
        Ev.callMain 0 ::
          Ev.callExit (envNoCxx.mainFn 0 3) :: [Int.ofNat 4].map Ev.callExit ∧
     calls (__start envNoCxx 0 3 [4]) = [] ∧
     (__start envNoCxx 0 3 [4]).countP isRegister = 0) :=
  ⟨rfl, C10_no_cxx envNoCxx 0 3 [4] rfl⟩

end Crt1
